import Mathlib

/-!
Verification of the incremental filtering pipeline and list-projection layer.

Shallow embedding of:
- `src/lib/search/index.ts` — the index-coordinator middleware
  (`setFilteredNotes`, the per-action handler with its `hasInitialized`
  one-shot flag, and the synchronous full-rebuild path);
- `src/lib/note-list/index.tsx` — `computeRowHeight`, `rowHeightCache`,
  `createCompositeNoteList`, `getHighlightedIndex`, `handleShortcut`, and
  `UNSAFE_componentWillReceiveProps`.

Machine numbers are modelled as `Int`/`Nat` (JS indices, pixel counts) and
`ℚ` (canvas text measurement); JS `null`/`undefined` are modelled by
`Option`, and JS truthiness of nullable numbers / strings is made explicit.
-/

namespace Simplenote

/-- Record identifiers are opaque strings. -/
abbrev EntityId := String

/-- A record in the live store: its identifier and its (opaque) content.
The preview excerpt is derived from a record by an external collaborator
function (`getNoteTitleAndPreview`), which we pass around as a parameter
`previewOf : NoteEntity → String` where needed. -/
structure NoteEntity where
  id : EntityId
  data : String
deriving DecidableEq, Repr

/-- A message posted to the background indexer over the search channel
(`searchProcessor.postMessage` in `src/lib/search/index.ts`). Optional
fields absent from a given JS message literal are `none`. -/
inductive SearchMsg where
  | updateNote (noteId : EntityId) (data : String)
  | filterNotes (searchQuery : Option String) (openedTag : Option (Option String))
      (showTrash : Option Bool)
deriving DecidableEq, Repr

/-- The single action dispatched into application state by the coordinator:
`actions.ui.filterNotes(list, previousIndex)` — one action value carrying
both the filtered list and the optional selection-hint index. -/
structure FilterDispatch where
  filteredNotes : List NoteEntity
  previousIndex : Option Nat
deriving DecidableEq, Repr

/-- `setFilteredNotes` from `src/lib/search/index.ts`:
`appState.notes?.filter(({ id }) => noteIds.has(id)) || emptyList` is
dispatched together with `previousIndex` in a single `filterNotes` action.
`appStateNotes = none` models an absent (`null`/`undefined`) record
collection; a non-empty JS array and the empty array are both handled by
`List.filter` (in JS an empty array is truthy, so `|| emptyList` only
replaces the `undefined` produced by optional chaining). -/
def setFilteredNotes (appStateNotes : Option (List NoteEntity))
    (noteIds : List EntityId) (previousIndex : Option Nat) : FilterDispatch :=
  match appStateNotes with
  | some notes => ⟨notes.filter (fun n => noteIds.contains n.id), previousIndex⟩
  | none => ⟨[], previousIndex⟩

/-- The `filterNotes` branch of `searchProcessor.onmessage`: a filter reply
carrying matching ids dispatches `setFilteredNotes(noteIds)` with no
selection hint. -/
def onFilterReply (appStateNotes : Option (List NoteEntity))
    (noteIds : List EntityId) : FilterDispatch :=
  setFilteredNotes appStateNotes noteIds none

/-- The application actions the middleware switches on. -/
inductive AppAction where
  | notesLoaded (notes : List NoteEntity)
  | remoteNoteUpdate (noteId : EntityId) (data : String)
  | openTag (tagName : String)
  | selectTrash
  | showAllNotes
  | search (searchQuery : String)
  | deleteNoteForever (previousIndex : Option Nat)
  | restoreNote (previousIndex : Option Nat)
  | trashNote (previousIndex : Option Nat)
  | authChanged
  | other
deriving DecidableEq, Repr

/-- Result of the middleware handling one action: the updated one-shot
flag, the messages posted to the indexer channel (in order), and the
actions dispatched synchronously into application state during this step. -/
structure StepResult where
  hasInitialized : Bool
  posted : List SearchMsg
  dispatched : List FilterDispatch
deriving DecidableEq, Repr

/-- One step of the middleware's action handler from
`src/lib/search/index.ts`. `updateFilter` is the worker module's in-process
fallback matcher (`import { updateFilter } from './worker'`, a file not part
of the sources at hand): the middleware is modelled parametrically over it;
it returns the set of matching record ids for a given filter kind. -/
def middlewareStep (updateFilter : String → List EntityId)
    (appStateNotes : Option (List NoteEntity)) (hasInitialized : Bool)
    (action : AppAction) : StepResult :=
  match action with
  | .notesLoaded notes =>
      if hasInitialized then
        ⟨true, [SearchMsg.filterNotes none none none], []⟩
      else
        ⟨true,
          (notes.map fun note => SearchMsg.updateNote note.id note.data)
            ++ [SearchMsg.filterNotes none none none],
          []⟩
  | .remoteNoteUpdate noteId d => ⟨hasInitialized, [.updateNote noteId d], []⟩
  | .openTag tagName => ⟨hasInitialized, [.filterNotes none (some (some tagName)) none], []⟩
  | .selectTrash => ⟨hasInitialized, [.filterNotes none (some none) (some true)], []⟩
  | .showAllNotes => ⟨hasInitialized, [.filterNotes none (some none) (some false)], []⟩
  | .search q => ⟨hasInitialized, [.filterNotes (some q) none none], []⟩
  | .deleteNoteForever p =>
      ⟨hasInitialized, [], [setFilteredNotes appStateNotes (updateFilter "fullSearch") p]⟩
  | .restoreNote p =>
      ⟨hasInitialized, [], [setFilteredNotes appStateNotes (updateFilter "fullSearch") p]⟩
  | .trashNote p =>
      ⟨hasInitialized, [], [setFilteredNotes appStateNotes (updateFilter "fullSearch") p]⟩
  | .authChanged =>
      ⟨hasInitialized, [], [setFilteredNotes appStateNotes (updateFilter "fullSearch") none]⟩
  | .other => ⟨hasInitialized, [], []⟩

/-- Run the middleware over a list of actions, threading the one-shot
`hasInitialized` flag and collecting the per-action batches of channel
messages. -/
def runMiddleware (updateFilter : String → List EntityId)
    (appStateNotes : Option (List NoteEntity)) :
    Bool → List AppAction → Bool × List (List SearchMsg)
  | h, [] => (h, [])
  | h, a :: rest =>
      let r := middlewareStep updateFilter appStateNotes h a
      let rec' := runMiddleware updateFilter appStateNotes r.hasInitialized rest
      (rec'.1, r.posted :: rec'.2)

/-- The `hasInitialized` flag never resets: every branch either preserves it
or sets it to `true`. -/
theorem middlewareStep_hasInitialized_monotone (uf : String → List EntityId)
    (ns : Option (List NoteEntity)) (a : AppAction) :
    (middlewareStep uf ns true a).hasInitialized = true := by
  cases a <;> simp [middlewareStep]

theorem runMiddleware_from_true (uf : String → List EntityId)
    (ns : Option (List NoteEntity)) (l : List AppAction) :
    (runMiddleware uf ns true l).1 = true := by
  induction l with
  | nil => rfl
  | cons a rest ih =>
      simp only [runMiddleware]
      rw [middlewareStep_hasInitialized_monotone]
      exact ih

/-- After any action sequence containing a `notesLoaded` event, the one-shot
flag is set, whatever the initial flag value. -/
theorem runMiddleware_after_loaded (uf : String → List EntityId)
    (ns : Option (List NoteEntity)) (pre mid : List AppAction)
    (notes₁ : List NoteEntity) (h : Bool) :
    (runMiddleware uf ns h (pre ++ AppAction.notesLoaded notes₁ :: mid)).1 = true := by
  induction pre generalizing h with
  | nil =>
      simp only [List.nil_append, runMiddleware]
      have hstep : (middlewareStep uf ns h (AppAction.notesLoaded notes₁)).hasInitialized
          = true := by
        cases h <;> simp [middlewareStep]
      rw [hstep]
      exact runMiddleware_from_true uf ns mid
  | cons a pre ih =>
      simp only [List.cons_append, runMiddleware]
      exact ih _

end Simplenote

namespace Simplenote

/-- C1: on a filter reply carrying matching ids, the dispatched filtered
list is exactly the live record set restricted to those ids — it is a
sublist of the live set (so the live set's original order, never the order
of ids in the reply), its members are precisely the live records whose id
occurs in the reply, and ids with no live record are silently dropped; the
list and the optional selection-hint index travel in the one dispatched
action. The closed conjunct instantiates the end-to-end example: a reply
listing two ids in reversed indexer order yields those two records in
original store order. -/
theorem setFilteredNotes_resolves_live_order :
    (∀ (notes : List NoteEntity) (noteIds : List EntityId) (prev : Option Nat),
      (setFilteredNotes (some notes) noteIds prev).filteredNotes
          = notes.filter (fun n => noteIds.contains n.id) ∧
      ((setFilteredNotes (some notes) noteIds prev).filteredNotes).Sublist notes ∧
      (∀ n : NoteEntity,
        n ∈ (setFilteredNotes (some notes) noteIds prev).filteredNotes
          ↔ n ∈ notes ∧ n.id ∈ noteIds) ∧
      (setFilteredNotes (some notes) noteIds prev).previousIndex = prev ∧
      onFilterReply (some notes) noteIds = setFilteredNotes (some notes) noteIds none) ∧
    (setFilteredNotes
        (some [⟨"n1", "the cat sat"⟩, ⟨"n2", "dog"⟩, ⟨"n3", "catnip"⟩])
        ["n3", "n1"] none).filteredNotes
      = [⟨"n1", "the cat sat"⟩, ⟨"n3", "catnip"⟩] := by
  refine ⟨fun notes noteIds prev => ⟨rfl, ?_, ?_, rfl, rfl⟩, by decide⟩
  · exact List.filter_sublist notes
  · intro n
    simp [setFilteredNotes, List.mem_filter]

/-- C10: if a filter reply arrives before any records are loaded (the
store's record collection is absent), the coordinator dispatches the empty
filtered list — the resolution step is total over an absent collection and
any id set. -/
theorem setFilteredNotes_absent_notes :
    ∀ (noteIds : List EntityId) (prev : Option Nat),
      setFilteredNotes none noteIds prev = ⟨[], prev⟩ ∧
      onFilterReply none noteIds = ⟨[], none⟩ := by
  intro noteIds prev
  exact ⟨rfl, rfl⟩

/-- C3: per-record upsert commands for the full corpus go to the indexer
channel at most once per session. After a first `notesLoaded` event has
been processed (anywhere in the preceding action sequence, starting from
the fresh `hasInitialized = false` state), a later `notesLoaded` event
posts exactly one `filterNotes` command and no `updateNote` upserts;
the very first `notesLoaded` is the one that posts the per-record upserts
followed by a filter command. -/
theorem middleware_bulk_load_once (uf : String → List EntityId)
    (ns : Option (List NoteEntity)) (pre mid : List AppAction)
    (notes₁ notes₂ : List NoteEntity) :
    (middlewareStep uf ns
        (runMiddleware uf ns false (pre ++ AppAction.notesLoaded notes₁ :: mid)).1
        (AppAction.notesLoaded notes₂)).posted
      = [SearchMsg.filterNotes none none none] ∧
    (middlewareStep uf ns false (AppAction.notesLoaded notes₁)).posted
      = (notes₁.map fun note => SearchMsg.updateNote note.id note.data)
          ++ [SearchMsg.filterNotes none none none] := by
  constructor
  · rw [runMiddleware_after_loaded]
    simp [middlewareStep]
  · simp [middlewareStep]

/-- C7: `DELETE_NOTE_FOREVER`, `RESTORE_NOTE` and `TRASH_NOTE` bypass the
background indexer — no message is posted to the channel — and instead
synchronously dispatch, within the same step, a fully rebuilt filtered list
produced by resolving the in-process fallback matcher's id set against the
live store, carrying the action's pre-action index as selection hint;
`App.authChanged` takes the identical synchronous path with no hint. -/
theorem middleware_synchronous_rebuild (uf : String → List EntityId)
    (ns : Option (List NoteEntity)) (h : Bool) (p : Option Nat) :
    (middlewareStep uf ns h (AppAction.deleteNoteForever p)).posted = [] ∧
    (middlewareStep uf ns h (AppAction.restoreNote p)).posted = [] ∧
    (middlewareStep uf ns h (AppAction.trashNote p)).posted = [] ∧
    (middlewareStep uf ns h (AppAction.authChanged)).posted = [] ∧
    (middlewareStep uf ns h (AppAction.deleteNoteForever p)).dispatched
      = [setFilteredNotes ns (uf "fullSearch") p] ∧
    (middlewareStep uf ns h (AppAction.restoreNote p)).dispatched
      = [setFilteredNotes ns (uf "fullSearch") p] ∧
    (middlewareStep uf ns h (AppAction.trashNote p)).dispatched
      = [setFilteredNotes ns (uf "fullSearch") p] ∧
    (middlewareStep uf ns h (AppAction.authChanged)).dispatched
      = [setFilteredNotes ns (uf "fullSearch") none] ∧
    (setFilteredNotes ns (uf "fullSearch") p).previousIndex = p := by
  refine ⟨rfl, rfl, rfl, rfl, rfl, rfl, rfl, rfl, ?_⟩
  cases ns <;> rfl

end Simplenote

namespace Simplenote

/-- List display modes (`T.ListDisplayMode`): comfy, condensed, expanded. -/
inductive DisplayMode where
  | comfy
  | condensed
  | expanded
deriving DecidableEq, Repr

/-- Height of title plus vertical padding in list rows (`24 + 18`). -/
def ROW_HEIGHT_BASE : Int := 24 + 18

/-- Height of one row of preview text in list rows. -/
def ROW_HEIGHT_LINE : Int := 21

/-- Maximum number of preview lines per display mode. -/
def maxPreviewLines : DisplayMode → Int
  | .comfy => 1
  | .condensed => 0
  | .expanded => 4

/-- Height of a single header row. -/
def HEADER_HEIGHT : Int := 28

/-- Height of a single tag result row. -/
def TAG_ROW_HEIGHT : Int := 40

/-- Height of the empty "No Notes" div. -/
def EMPTY_DIV_HEIGHT : Int := 200

/-- `computeRowHeight` from `src/lib/note-list/index.tsx`. The canvas text
measurement `getTextWidth(preview, width - 24)` is modelled by a parameter
`getTextWidth : String → ℚ`: `measureText` does not depend on the canvas
width that the source passes as second argument, only on the text, so the
measurement is a function of the preview string alone. `Math.ceil` is
`Int.ceil` over ℚ. -/
def computeRowHeight (getTextWidth : String → ℚ) (width : Int)
    (noteDisplay : DisplayMode) (preview : String) : Int :=
  if noteDisplay = .condensed then
    ROW_HEIGHT_BASE
  else
    let lines : Int := ⌈getTextWidth preview / ((width : ℚ) - 24)⌉
    ROW_HEIGHT_BASE + ROW_HEIGHT_LINE * min (maxPreviewLines noteDisplay) lines

/-- Rows of the composite note list: real records plus the sentinel rows
`'tag-suggestions'`, `'notes-header'`, `'no-notes'` that the source splices
into the array. -/
inductive CompositeItem where
  | note (n : NoteEntity)
  | tagSuggestions
  | notesHeader
  | noNotes
deriving DecidableEq, Repr

/-- `createCompositeNoteList` from `src/lib/note-list/index.tsx`. Real
records are injected into the row type by `CompositeItem.note` (in the
source the array simply holds the record values themselves). -/
def createCompositeNoteList (notes : List NoteEntity) (searchQuery : String)
    (tagResultsFound : Nat) : List CompositeItem :=
  if searchQuery.length = 0 ∨ tagResultsFound = 0 then
    notes.map CompositeItem.note
  else
    CompositeItem.tagSuggestions :: CompositeItem.notesHeader ::
      (if notes.length > 0 then notes.map CompositeItem.note else [CompositeItem.noNotes])

/-- One entry of the `previewCache` map: the `[width, noteDisplay, preview,
height]` tuple stored under a record id. -/
structure CacheEntry where
  width : Int
  noteDisplay : DisplayMode
  preview : String
  height : Int
deriving DecidableEq, Repr

/-- The result of one `getRowHeight` row evaluation: the returned height,
the cache map afterwards, and how many times the expensive measurement
function `f` was invoked (0 or 1). -/
structure HeightResult where
  height : Int
  cache : EntityId → Option CacheEntry
  measurements : Nat

/-- `rowHeightCache f` from `src/lib/note-list/index.tsx`, applied to one
row. Sentinel rows return fixed heights without touching the cache. For a
record row the preview is derived by the external `getNoteTitleAndPreview`
collaborator (parameter `previewOf`); a cache hit is returned only when the
stored width, display mode and preview all equal the current inputs; any
miss measures once via `f` and unconditionally overwrites the entry. -/
def rowHeightCacheStep (f : Int → DisplayMode → String → Int)
    (previewOf : NoteEntity → String) (cache : EntityId → Option CacheEntry)
    (item : CompositeItem) (noteDisplay : DisplayMode) (tagResultsFound : Nat)
    (width : Int) : HeightResult :=
  match item with
  | .notesHeader => ⟨HEADER_HEIGHT, cache, 0⟩
  | .tagSuggestions => ⟨HEADER_HEIGHT + TAG_ROW_HEIGHT * tagResultsFound, cache, 0⟩
  | .noNotes => ⟨EMPTY_DIV_HEIGHT, cache, 0⟩
  | .note note =>
      let preview := previewOf note
      match cache note.id with
      | some c =>
          if c.width = width ∧ c.noteDisplay = noteDisplay ∧ c.preview = preview then
            ⟨c.height, cache, 0⟩
          else
            let h := f width noteDisplay preview
            ⟨h, fun k => if k = note.id then some ⟨width, noteDisplay, preview, h⟩ else cache k, 1⟩
      | none =>
          let h := f width noteDisplay preview
          ⟨h, fun k => if k = note.id then some ⟨width, noteDisplay, preview, h⟩ else cache k, 1⟩

/-- C2 counterexample: the claim "for every width ≤ 0 ... the height
computation returns a ... non-negative number: the estimated-lines
computation guards against negative divisors" is false on the code. There
is no guard: at width 0 in comfy mode, with a preview whose measured text
width is 1000 px, the line estimate is `⌈1000 / -24⌉ = -41` and the height
is `42 + 21·(-41) = -819 < 0`. -/
theorem computeRowHeight_negative_counterexample :
    computeRowHeight (fun _ => 1000) 0 DisplayMode.comfy "x" < 0 := by
  have hceil : (⌈(1000 : ℚ) / ((0 : Int) - 24)⌉ : Int) = -41 := by
    rw [Int.ceil_eq_iff]
    constructor <;> norm_num
  simp only [computeRowHeight, maxPreviewLines, ROW_HEIGHT_BASE, ROW_HEIGHT_LINE,
    reduceCtorEq, if_false]
  rw [hceil]
  norm_num

/-- C2 amended: for every width ≤ 0, preview with non-negative measured
text width, and display mode, the computation is total and its result never
exceeds the base height (the divisor `width - 24` is strictly negative, so
no division by zero occurs and the estimated line count is non-positive);
condensed mode returns exactly the base height. The code does NOT guard
against the negative divisor, so the result can drop below the base height
and below zero, as the counterexample shows. -/
theorem computeRowHeight_width_nonpos_le_base (tw : String → ℚ) (width : Int)
    (noteDisplay : DisplayMode) (preview : String)
    (htw : 0 ≤ tw preview) (hw : width ≤ 0) :
    computeRowHeight tw width noteDisplay preview ≤ ROW_HEIGHT_BASE ∧
    (noteDisplay = DisplayMode.condensed →
      computeRowHeight tw width noteDisplay preview = ROW_HEIGHT_BASE) := by
  constructor
  · unfold computeRowHeight
    split
    · exact le_refl _
    · have hdiv : tw preview / ((width : ℚ) - 24) ≤ 0 := by
        apply div_nonpos_of_nonneg_of_nonpos htw
        have : (width : ℚ) ≤ 0 := by exact_mod_cast hw
        linarith
      have hceil : (⌈tw preview / ((width : ℚ) - 24)⌉ : Int) ≤ 0 := by
        rw [Int.ceil_le]
        exact_mod_cast hdiv
      have hmin : min (maxPreviewLines noteDisplay) ⌈tw preview / ((width : ℚ) - 24)⌉ ≤ 0 :=
        le_trans (min_le_right _ _) hceil
      have hprod : ROW_HEIGHT_LINE * min (maxPreviewLines noteDisplay)
          ⌈tw preview / ((width : ℚ) - 24)⌉ ≤ 0 := by
        apply mul_nonpos_of_nonneg_of_nonpos _ hmin
        norm_num [ROW_HEIGHT_LINE]
      show ROW_HEIGHT_BASE + ROW_HEIGHT_LINE * min (maxPreviewLines noteDisplay)
          ⌈tw preview / ((width : ℚ) - 24)⌉ ≤ ROW_HEIGHT_BASE
      linarith
  · intro hcond
    simp [computeRowHeight, hcond]

/-- Witness for the C2 amended theorem at concrete inputs. -/
theorem computeRowHeight_width_nonpos_le_base_witness :
    computeRowHeight (fun _ => 5) (-1) DisplayMode.comfy "p" ≤ ROW_HEIGHT_BASE ∧
    computeRowHeight (fun _ => 5) (-1) DisplayMode.condensed "p" = ROW_HEIGHT_BASE :=
  ⟨(computeRowHeight_width_nonpos_le_base (fun _ => 5) (-1) DisplayMode.comfy "p"
      (by norm_num) (by norm_num)).1,
   (computeRowHeight_width_nonpos_le_base (fun _ => 5) (-1) DisplayMode.condensed "p"
      (by norm_num) (by norm_num)).2 rfl⟩

/-- C4: with an empty query or a zero tag-suggestion count the projector
returns the record list unchanged with no synthetic rows; otherwise it
prepends the tag-suggestions row and the header row, followed by the
records when the list is non-empty or a single empty-placeholder row when
it is empty — in particular `project [] "abc" 3` is exactly
`[tag-suggestions, notes-header, no-notes]` (the suggestion row's count is
the `tagResultsFound` argument, consumed by the row-height function). -/
theorem createCompositeNoteList_spec :
    ∀ (notes : List NoteEntity) (q : String) (c : Nat),
      ((q.length = 0 ∨ c = 0) →
        createCompositeNoteList notes q c = notes.map CompositeItem.note) ∧
      (q.length ≠ 0 → c ≠ 0 → notes ≠ [] →
        createCompositeNoteList notes q c
          = CompositeItem.tagSuggestions :: CompositeItem.notesHeader ::
              notes.map CompositeItem.note) ∧
      (q.length ≠ 0 → c ≠ 0 →
        createCompositeNoteList [] q c
          = [CompositeItem.tagSuggestions, CompositeItem.notesHeader,
              CompositeItem.noNotes]) := by
  intro notes q c
  refine ⟨fun h => by simp [createCompositeNoteList, h], fun hq hc hn => ?_, fun hq hc => ?_⟩
  · have hlen : notes.length > 0 := List.length_pos.mpr hn
    simp [createCompositeNoteList, hq, hc, hlen]
  · simp [createCompositeNoteList, hq, hc]

/-- Witness for C4 at the spec's concrete input: `project [] "abc" 3`. -/
theorem createCompositeNoteList_spec_witness :
    createCompositeNoteList [] "abc" 3
      = [CompositeItem.tagSuggestions, CompositeItem.notesHeader,
          CompositeItem.noNotes] :=
  (createCompositeNoteList_spec [] "abc" 3).2.2 (by decide) (by decide)

/-- C8: for every record row, width and display mode, evaluating the cached
height function twice in succession with identical inputs returns the
identical height, performs the expensive measurement at most once overall
and not at all on the second call (the second call is a hit because the
entry stored by the first call records exactly the current width, display
mode and preview), and leaves the cache untouched by the second call. -/
theorem rowHeightCache_idempotent (f : Int → DisplayMode → String → Int)
    (previewOf : NoteEntity → String) (cache : EntityId → Option CacheEntry)
    (n : NoteEntity) (noteDisplay : DisplayMode) (tagResultsFound : Nat)
    (width : Int) :
    (rowHeightCacheStep f previewOf
        (rowHeightCacheStep f previewOf cache (.note n) noteDisplay tagResultsFound width).cache
        (.note n) noteDisplay tagResultsFound width).height
      = (rowHeightCacheStep f previewOf cache (.note n) noteDisplay tagResultsFound width).height ∧
    (rowHeightCacheStep f previewOf
        (rowHeightCacheStep f previewOf cache (.note n) noteDisplay tagResultsFound width).cache
        (.note n) noteDisplay tagResultsFound width).measurements = 0 ∧
    (rowHeightCacheStep f previewOf cache (.note n) noteDisplay tagResultsFound width).measurements
      ≤ 1 ∧
    (rowHeightCacheStep f previewOf
        (rowHeightCacheStep f previewOf cache (.note n) noteDisplay tagResultsFound width).cache
        (.note n) noteDisplay tagResultsFound width).cache
      = (rowHeightCacheStep f previewOf cache (.note n) noteDisplay tagResultsFound width).cache ∧
    (rowHeightCacheStep f previewOf cache (.note n) noteDisplay tagResultsFound width).cache n.id
      = some ⟨width, noteDisplay, previewOf n,
          (rowHeightCacheStep f previewOf cache (.note n) noteDisplay tagResultsFound width).height⟩ := by
  cases hcc : cache n.id with
  | none =>
      simp [rowHeightCacheStep, hcc]
  | some c =>
      by_cases hhit : c.width = width ∧ c.noteDisplay = noteDisplay ∧ c.preview = previewOf n
      · obtain ⟨h1, h2, h3⟩ := hhit
        cases c
        simp_all [rowHeightCacheStep]
      · simp [rowHeightCacheStep, hcc, hhit]

end Simplenote

namespace Simplenote

/-- Component selection state `this.state.selected`: the identifier and
index highlighted in the current filtered list, both nullable. The indices
the component ever stores come from `getHighlightedIndex`, which only
produces list positions, so the stored index is a `Nat`. -/
structure Selected where
  noteId : Option EntityId
  index : Option Nat
deriving DecidableEq, Repr

/-- JS truthiness of a nullable number: `null` and `0` are falsy. -/
def truthyIdx : Option Nat → Bool
  | none => false
  | some n => n != 0

/-- JS numeric coercion of a nullable number: `null` coerces to `0` in
arithmetic and ordering comparisons. -/
def jsNum : Option Nat → Int
  | none => 0
  | some n => (n : Int)

/-- JS array indexing with an integer index: `notes[i]` is `undefined` for
any out-of-range index, negative ones included. -/
def jsGetInt (notes : List NoteEntity) (i : Int) : Option NoteEntity :=
  if 0 ≤ i then notes[i.toNat]? else none

/-- JS array indexing with a nullable index: property access does not
coerce, so `notes[null]` is `undefined`. -/
def jsGetO (notes : List NoteEntity) (i : Option Nat) : Option NoteEntity :=
  match i with
  | none => none
  | some k => notes[k]?

/-- JS `Array.prototype.findIndex`: the index of the first element
satisfying the predicate, or `-1` when none does. -/
def findIndexJs (notes : List NoteEntity) (p : NoteEntity → Bool) : Int :=
  match notes.findIdx? p with
  | some i => (i : Int)
  | none => -1

/-- A nullable stored `Nat` index viewed as the nullable JS number it is. -/
def optCast (i : Option Nat) : Option Int :=
  match i with
  | none => none
  | some k => some (k : Int)

/-- `getHighlightedIndex` from `src/lib/note-list/index.tsx`, the selection
resolution cascade. `selectedNote` is the `props.selectedNote` explicit
selection; the state's index flows through JS truthiness (`!index`),
property access (`notes[index]?.id`), and numeric coercion
(`Math.min(index, notes.length - 1)`), each modelled by the helpers
above. -/
def getHighlightedIndex (notes : List NoteEntity) (selectedNote : Option NoteEntity)
    (selected : Selected) : Option Int :=
  let index := selected.index
  if notes.length = 0 then
    none
  else if selectedNote = none ∧ truthyIdx index = false then
    let firstNote := findIndexJs notes (fun item => item.id != "")
    if firstNote > -1 then some firstNote else none
  else if selectedNote.isSome = true ∧
      (jsGetO notes index).map NoteEntity.id = selectedNote.map NoteEntity.id then
    optCast index
  else
    let noteAt := findIndexJs notes
      (fun item => some item.id == selectedNote.map NoteEntity.id)
    if selectedNote.isSome = true ∧ noteAt > -1 then
      some noteAt
    else if selectedNote.isSome = true then
      some (min (jsNum index) ((notes.length : Int) - 1))
    else
      optCast index

/-- A keyboard event as seen by `handleShortcut`. -/
structure KeyEvent where
  ctrlKey : Bool
  metaKey : Bool
  shiftKey : Bool
  key : String
deriving DecidableEq, Repr

/-- The previous-note chord: platform modifier + Shift + ArrowUp or `k`. -/
def isPrevChord (ev : KeyEvent) : Bool :=
  (ev.ctrlKey || ev.metaKey) && ev.shiftKey
    && (ev.key == "ArrowUp" || ev.key.toLower == "k")

/-- The next-note chord: platform modifier + Shift + ArrowDown or `j`. -/
def isNextChord (ev : KeyEvent) : Bool :=
  (ev.ctrlKey || ev.metaKey) && ev.shiftKey
    && (ev.key == "ArrowDown" || ev.key.toLower == "j")

/-- Truthiness of `notes[i]?.id`: an in-range record with a non-empty
identifier. -/
def validIdAt (notes : List NoteEntity) (i : Int) : Bool :=
  match jsGetInt notes i with
  | some n => n.id != ""
  | none => false

/-- Everything observable about one `handleShortcut` invocation: the
handler's return value (`true` lets the browser keep processing the input
event), the identifier passed to `onSelectNote` if it was called, and
whether propagation was stopped / the default action prevented. -/
structure ShortcutResult where
  propagate : Bool
  selectedNoteId : Option EntityId
  stoppedPropagation : Bool
  preventedDefault : Bool
deriving DecidableEq, Repr

/-- `handleShortcut` from `src/lib/note-list/index.tsx`. The source guards
each move with `-1 === highlightedIndex`, then with
`index < 0 || !notes[index - 1]?.id` (previous) or
`index >= notes.length || !notes[index + 1]?.id` (next), where `index` is
the nullable stored selection index. -/
def handleShortcut (notes : List NoteEntity) (selectedNote : Option NoteEntity)
    (selected : Selected) (event : KeyEvent) : ShortcutResult :=
  let index := selected.index
  let highlightedIndex := getHighlightedIndex notes selectedNote selected
  if isPrevChord event then
    if highlightedIndex = some (-1) then ⟨true, none, false, false⟩
    else if jsNum index < 0 ∨ validIdAt notes (jsNum index - 1) = false then
      ⟨true, none, false, false⟩
    else ⟨false, (jsGetInt notes (jsNum index - 1)).map NoteEntity.id, true, true⟩
  else if isNextChord event then
    if highlightedIndex = some (-1) then ⟨true, none, false, false⟩
    else if jsNum index ≥ (notes.length : Int) ∨ validIdAt notes (jsNum index + 1) = false then
      ⟨true, none, false, false⟩
    else ⟨false, (jsGetInt notes (jsNum index + 1)).map NoteEntity.id, true, true⟩
  else ⟨true, none, false, false⟩

/-- The neighbor slot a sequential-move chord targets: one below the stored
index for the previous-note chord, one above for the next-note chord. -/
def moveTarget (selected : Selected) (ev : KeyEvent) : Int :=
  if isPrevChord ev then jsNum selected.index - 1 else jsNum selected.index + 1

theorem jsNum_nonneg (i : Option Nat) : 0 ≤ jsNum i := by
  cases i <;> simp [jsNum]

theorem validIdAt_bounds (notes : List NoteEntity) (i : Int)
    (h : validIdAt notes i = true) : 0 ≤ i ∧ i < (notes.length : Int) := by
  unfold validIdAt jsGetInt at h
  by_cases hi : 0 ≤ i
  · refine ⟨hi, ?_⟩
    rw [if_pos hi] at h
    cases hg : notes[i.toNat]? with
    | none => rw [hg] at h; simp at h
    | some n =>
        have := List.getElem?_eq_some_iff.mp hg
        obtain ⟨hlt, -⟩ := this
        omega
  · rw [if_neg hi] at h
    simp at h

theorem validIdAt_nil (i : Int) : validIdAt [] i = false := by
  simp [validIdAt, jsGetInt]

theorem validIdAt_neg (notes : List NoteEntity) (i : Int) (hi : i < 0) :
    validIdAt notes i = false := by
  have hn : ¬ (0 ≤ i) := by omega
  simp [validIdAt, jsGetInt, hn]

theorem validIdAt_all_empty (notes : List NoteEntity) (i : Int)
    (hall : ∀ item ∈ notes, item.id = "") : validIdAt notes i = false := by
  unfold validIdAt jsGetInt
  by_cases hi : 0 ≤ i
  · rw [if_pos hi]
    cases hg : notes[i.toNat]? with
    | none => rfl
    | some n =>
        have hmem : n ∈ notes := List.getElem?_mem hg
        simp [hall n hmem]
  · rw [if_neg hi]

/-- Selection resolution never yields a negative index; in particular the
source's `-1 === highlightedIndex` test can never be true. -/
theorem getHighlightedIndex_nonneg (notes : List NoteEntity)
    (selectedNote : Option NoteEntity) (st : Selected) (k : Int)
    (h : getHighlightedIndex notes selectedNote st = some k) : 0 ≤ k := by
  simp only [getHighlightedIndex] at h
  split_ifs at h with h1 h2 h3 h4 h5 h6
  · cases h
    omega
  · cases hst : st.index with
    | none => rw [hst] at h; simp [optCast] at h
    | some i =>
        rw [hst] at h
        simp only [optCast, Option.some.injEq] at h
        omega
  · cases h
    obtain ⟨-, hgt⟩ := h5
    omega
  · cases h
    have hjn := jsNum_nonneg st.index
    omega
  · cases hst : st.index with
    | none => rw [hst] at h; simp [optCast] at h
    | some i =>
        rw [hst] at h
        simp only [optCast, Option.some.injEq] at h
        omega

/-- When selection resolution yields no highlight, neither neighbor slot of
the stored index holds a valid record identifier. -/
theorem getHighlightedIndex_none_invalid (notes : List NoteEntity)
    (selectedNote : Option NoteEntity) (st : Selected)
    (h : getHighlightedIndex notes selectedNote st = none) :
    validIdAt notes (jsNum st.index - 1) = false ∧
    validIdAt notes (jsNum st.index + 1) = false := by
  simp only [getHighlightedIndex] at h
  split_ifs at h with h1 h2 h3 h4 h5 h6
  · have hnil : notes = [] := List.length_eq_zero.mp h1
    subst hnil
    exact ⟨validIdAt_nil _, validIdAt_nil _⟩
  · have hall : ∀ item ∈ notes, item.id = "" := by
      have hnone : notes.findIdx? (fun item => item.id != "") = none := by
        cases hf : notes.findIdx? (fun item => item.id != "") with
        | none => rfl
        | some j =>
            exfalso
            unfold findIndexJs at h3
            rw [hf] at h3
            simp at h3
            omega
      intro item hmem
      have := List.findIdx?_eq_none_iff.mp hnone item hmem
      simpa using this
    exact ⟨validIdAt_all_empty _ _ hall, validIdAt_all_empty _ _ hall⟩
  · obtain ⟨hss, hmap⟩ := h4
    obtain ⟨sn, hsel⟩ := Option.isSome_iff_exists.mp hss
    subst hsel
    cases hst : st.index with
    | none =>
        rw [hst] at hmap
        simp [jsGetO] at hmap
    | some i => rw [hst] at h; simp [optCast] at h
  · cases hst : st.index with
    | none =>
        exfalso
        apply h2
        refine ⟨?_, by rw [hst]; rfl⟩
        cases hsel : selectedNote with
        | none => rfl
        | some sn => rw [hsel] at h6; simp at h6
    | some i => rw [hst] at h; simp [optCast] at h

/-- The early-return guard of `UNSAFE_componentWillReceiveProps`:
`index && selectedNote && notes[index]?.id === selectedNote.id` plus
unchanged trash/tag context — when it holds, selection resolution is
skipped and nothing is dispatched or stored. -/
abbrev wrpGuard (notes : List NoteEntity) (selectedNote : Option NoteEntity)
    (showTrash prevShowTrash : Bool) (openedTag prevOpenedTag : Option String)
    (st : Selected) : Prop :=
  truthyIdx st.index = true ∧ selectedNote.isSome = true ∧
    (jsGetO notes st.index).map NoteEntity.id = selectedNote.map NoteEntity.id ∧
    showTrash = prevShowTrash ∧ openedTag = prevOpenedTag

/-- Everything observable about one `UNSAFE_componentWillReceiveProps`
run: the identifier passed to `onSelectNote` if it was called, and the new
`selected` component state if `setState` was called. -/
structure WRPResult where
  dispatchedSelect : Option EntityId
  newSelected : Option Selected
deriving DecidableEq, Repr

/-- `UNSAFE_componentWillReceiveProps` from `src/lib/note-list/index.tsx`.
The source reads `notes[nextIndex].id` without optional chaining; the
access is modelled by `jsGetInt` (resolution yields an in-range index in
reachable states, which the claim theorems assume explicitly). -/
def componentWillReceiveProps (notes : List NoteEntity) (openedTag : Option String)
    (selectedNote : Option NoteEntity) (showTrash : Bool)
    (prevShowTrash : Bool) (prevOpenedTag : Option String) (st : Selected) : WRPResult :=
  if wrpGuard notes selectedNote showTrash prevShowTrash openedTag prevOpenedTag st then
    ⟨none, none⟩
  else
    match getHighlightedIndex notes selectedNote st with
    | none => ⟨none, some ⟨none, none⟩⟩
    | some nextIndex =>
        let nid := (jsGetInt notes nextIndex).map NoteEntity.id
        if selectedNote.isNone = true ∨ ¬ selectedNote.map NoteEntity.id = nid then
          ⟨nid, some ⟨nid, some nextIndex.toNat⟩⟩
        else
          ⟨none, some ⟨nid, some nextIndex.toNat⟩⟩

end Simplenote

namespace Simplenote

/-- C5: for a non-empty filtered list with an explicit selection whose
record is not at the previously recorded index: if the selected identifier
occurs somewhere in the list, resolution yields the (first) index where it
is found; if it occurs nowhere, resolution yields
`min(previousIndex, length − 1)` — "different note, same slot". -/
theorem getHighlightedIndex_moved_or_clamped
    (notes : List NoteEntity) (sn : NoteEntity) (noteId : Option EntityId) (i : Nat)
    (hne : notes ≠ [])
    (hnotat : ¬ (notes[i]?.map NoteEntity.id = some sn.id)) :
    getHighlightedIndex notes (some sn) ⟨noteId, some i⟩
      = match notes.findIdx? (fun item => some item.id == some sn.id) with
        | some j => some (j : Int)
        | none => some (min (i : Int) ((notes.length : Int) - 1)) := by
  have hlen : ¬ notes.length = 0 := fun hl => hne (List.length_eq_zero.mp hl)
  simp only [getHighlightedIndex]
  rw [if_neg hlen]
  rw [if_neg (by simp)]
  rw [if_neg (by
    intro hc
    exact hnotat (by simpa [jsGetO] using hc.2))]
  simp only [findIndexJs, Option.map_some']
  cases hf : notes.findIdx? (fun item => some item.id == some sn.id) with
  | some j =>
      rw [if_pos ⟨rfl, by show (-1 : Int) < (j : Int); omega⟩]
  | none =>
      rw [if_neg (fun hc => absurd hc.2 (by omega : ¬ ((-1 : Int) < -1)))]
      rw [if_pos (show (some sn).isSome = true from rfl)]
      rfl

/-- Witness for C5 at the spec's concrete input: list `[A,B,C]` with
selection `{id: B, index: 1}` became `[A,C]`; B occurs nowhere, so
resolution clamps to index 1, pointing at C. -/
theorem getHighlightedIndex_moved_or_clamped_witness :
    getHighlightedIndex [⟨"a", "A"⟩, ⟨"c", "C"⟩] (some ⟨"b", "B"⟩)
        ⟨some "b", some 1⟩ = some 1 := by
  rw [getHighlightedIndex_moved_or_clamped [⟨"a", "A"⟩, ⟨"c", "C"⟩]
    ⟨"b", "B"⟩ (some "b") 1 (by decide) (by decide)]
  decide

/-- C6: for every sequential-move chord: when no record is currently
highlighted (selection resolution yields nothing), or when the target
neighbor slot of the stored index holds no valid record identifier (out of
range past either edge, or an entry with no truthy id), the handler is a
no-op that returns `true` so the input event propagates for default
handling; otherwise it requests selection of the neighbor slot's
identifier, stops propagation, prevents the default action and returns
`false`. -/
theorem handleShortcut_spec (notes : List NoteEntity)
    (selectedNote : Option NoteEntity) (st : Selected) (ev : KeyEvent)
    (hchord : isPrevChord ev = true ∨ isNextChord ev = true) :
    (getHighlightedIndex notes selectedNote st = none →
      handleShortcut notes selectedNote st ev = ⟨true, none, false, false⟩) ∧
    (validIdAt notes (moveTarget st ev) = false →
      handleShortcut notes selectedNote st ev = ⟨true, none, false, false⟩) ∧
    (validIdAt notes (moveTarget st ev) = true →
      handleShortcut notes selectedNote st ev
        = ⟨false, (jsGetInt notes (moveTarget st ev)).map NoteEntity.id, true, true⟩) := by
  have hmain2 : validIdAt notes (moveTarget st ev) = false →
      handleShortcut notes selectedNote st ev = ⟨true, none, false, false⟩ := by
    intro hinv
    unfold moveTarget at hinv
    unfold handleShortcut
    by_cases hprev : isPrevChord ev = true
    · rw [if_pos hprev] at hinv
      rw [if_pos hprev]
      by_cases hneg : getHighlightedIndex notes selectedNote st = some (-1)
      · rw [if_pos hneg]
      · rw [if_neg hneg, if_pos (Or.inr hinv)]
    · have hnext : isNextChord ev = true := hchord.resolve_left hprev
      rw [if_neg hprev] at hinv
      rw [if_neg hprev, if_pos hnext]
      by_cases hneg : getHighlightedIndex notes selectedNote st = some (-1)
      · rw [if_pos hneg]
      · rw [if_neg hneg, if_pos (Or.inr hinv)]
  refine ⟨?_, hmain2, ?_⟩
  · intro hnone
    obtain ⟨hv1, hv2⟩ := getHighlightedIndex_none_invalid notes selectedNote st hnone
    apply hmain2
    unfold moveTarget
    by_cases hprev : isPrevChord ev = true
    · rw [if_pos hprev]; exact hv1
    · rw [if_neg hprev]; exact hv2
  · intro hval
    have hneg : ¬ getHighlightedIndex notes selectedNote st = some (-1) := by
      intro hc
      have := getHighlightedIndex_nonneg notes selectedNote st (-1) hc
      omega
    have hjn := jsNum_nonneg st.index
    unfold moveTarget at hval ⊢
    unfold handleShortcut
    by_cases hprev : isPrevChord ev = true
    · rw [if_pos hprev] at hval ⊢
      rw [if_pos hprev]
      rw [if_neg hneg]
      rw [if_neg (by
        rintro (hc | hc)
        · omega
        · rw [hval] at hc; cases hc)]
    · have hnext : isNextChord ev = true := hchord.resolve_left hprev
      rw [if_neg hprev] at hval ⊢
      obtain ⟨-, hlt⟩ := validIdAt_bounds notes _ hval
      rw [if_neg hprev]
      rw [if_pos hnext]
      rw [if_neg hneg]
      rw [if_neg (by
        rintro (hc | hc)
        · omega
        · rw [hval] at hc; cases hc)]

/-- Witness for C6 at concrete inputs: Ctrl+Shift+ArrowUp with slot 1
stored and a valid record at slot 0 selects that record and marks the
event handled. -/
theorem handleShortcut_spec_witness :
    handleShortcut [⟨"a", "A"⟩, ⟨"b", "B"⟩] (some ⟨"b", "B"⟩)
        ⟨some "b", some 1⟩ ⟨true, false, true, "ArrowUp"⟩
      = ⟨false, some "a", true, true⟩ := by
  have h := (handleShortcut_spec [⟨"a", "A"⟩, ⟨"b", "B"⟩] (some ⟨"b", "B"⟩)
    ⟨some "b", some 1⟩ ⟨true, false, true, "ArrowUp"⟩
    (Or.inl (by decide))).2.2 (by decide)
  rw [h]
  decide

/-- C9: whenever selection resolution actually runs on incoming props (the
early-return guard fails) and resolves to an in-range index, the component
calls into the owning state container (`onSelectNote`) if and only if the
resolved identifier differs from the currently selected identifier —
including when nothing was selected; when only the index changed for the
same identifier, nothing is dispatched, so upstream selection state is
left unchanged, while the local state still records the new index. -/
theorem willReceiveProps_dispatch_iff (notes : List NoteEntity)
    (openedTag : Option String) (selectedNote : Option NoteEntity)
    (showTrash prevShowTrash : Bool) (prevOpenedTag : Option String)
    (st : Selected) (nextIndex : Int) (rn : NoteEntity)
    (hguard : ¬ wrpGuard notes selectedNote showTrash prevShowTrash openedTag
        prevOpenedTag st)
    (hres : getHighlightedIndex notes selectedNote st = some nextIndex)
    (hrn : jsGetInt notes nextIndex = some rn) :
    (componentWillReceiveProps notes openedTag selectedNote showTrash prevShowTrash
          prevOpenedTag st).dispatchedSelect
        = (if selectedNote.map NoteEntity.id = some rn.id then none else some rn.id) ∧
    (componentWillReceiveProps notes openedTag selectedNote showTrash prevShowTrash
          prevOpenedTag st).newSelected
        = some ⟨some rn.id, some nextIndex.toNat⟩ ∧
    ((componentWillReceiveProps notes openedTag selectedNote showTrash prevShowTrash
          prevOpenedTag st).dispatchedSelect ≠ none
        ↔ ¬ selectedNote.map NoteEntity.id = some rn.id) := by
  unfold componentWillReceiveProps
  rw [if_neg hguard, hres]
  simp only [hrn, Option.map_some']
  by_cases hid : selectedNote.map NoteEntity.id = some rn.id
  · have hss : selectedNote.isSome = true := by
      cases hsel : selectedNote with
      | none => rw [hsel] at hid; simp at hid
      | some sn => rfl
    rw [if_neg (by
      rintro (hc | hc)
      · rw [Option.isNone_iff_eq_none] at hc
        rw [hc] at hid
        simp at hid
      · exact hc hid)]
    simp [hid]
  · rw [if_pos (Or.inr hid)]
    simp [hid]

/-- Witness for C9 at concrete inputs: nothing selected, resolution picks
slot 0, so a selection request for that record is dispatched and the local
state records it. -/
theorem willReceiveProps_dispatch_iff_witness :
    (componentWillReceiveProps [⟨"a", "A"⟩] none none false false none
        ⟨none, none⟩).dispatchedSelect = some "a" ∧
    (componentWillReceiveProps [⟨"a", "A"⟩] none none false false none
        ⟨none, none⟩).newSelected = some ⟨some "a", some 0⟩ := by
  have h := willReceiveProps_dispatch_iff [⟨"a", "A"⟩] none none false false none
    ⟨none, none⟩ 0 ⟨"a", "A"⟩ (by decide) (by decide) (by decide)
  refine ⟨?_, h.2.1⟩
  rw [h.1]
  decide

end Simplenote
